import Mathlib

/-!
Verification of the prettyme build pipeline (latex.py, html.py).

The embedding works over `List Char` (one Python byte-string character per
list element).  Python's string primitives used by the source are modelled
directly: `str.strip` (ASCII whitespace), `str.replace` (leftmost,
non-overlapping, all occurrences), `str.startswith`/`endswith`,
`str.split` on a newline, `"\n".join`, and the Python 2 hex codec
(`encode` to two lowercase digits per byte, `decode` failing on
non-hex digits or odd length).
-/

/-- Characters stripped by Python's `str.strip()`. -/
def isPySpace (c : Char) : Bool :=
  c = ' ' || c = '\t' || c = '\n' || c = '\r' || c = Char.ofNat 11 || c = Char.ofNat 12

/-- Python `str.strip()`: drop leading and trailing ASCII whitespace. -/
def pyStrip (l : List Char) : List Char :=
  ((l.dropWhile isPySpace).reverse.dropWhile isPySpace).reverse

/-- Python `str.startswith(p)`. -/
def startsWith : List Char → List Char → Bool
  | [], _ => true
  | _ :: _, [] => false
  | p :: ps, c :: cs => p = c && startsWith ps cs

/-- Python `str.endswith(p)`. -/
def endsWith (p l : List Char) : Bool :=
  startsWith p.reverse l.reverse

/-- `occurs pat l` is true when `pat` occurs as a contiguous run of `l`
(Python's `pat in l`). -/
def occurs (pat : List Char) : List Char → Bool
  | [] => startsWith pat []
  | c :: cs => startsWith pat (c :: cs) || occurs pat cs

/-- Worker for Python `str.replace`: scans the text left to right, emitting
`rep` at each match of the non-empty pattern `p :: ps`; a positive skip
counter consumes the matched characters. -/
def replaceGo (p : Char) (ps rep : List Char) : Nat → List Char → List Char
  | 0, [] => []
  | 0, c :: cs =>
    if startsWith (p :: ps) (c :: cs) then rep ++ replaceGo p ps rep ps.length cs
    else c :: replaceGo p ps rep 0 cs
  | _ + 1, [] => []
  | k + 1, _ :: cs => replaceGo p ps rep k cs

/-- Python `l.replace(pat, rep)` (the sources never call it with an empty
pattern, which is modelled as the identity). -/
def pyReplace (pat rep l : List Char) : List Char :=
  match pat with
  | [] => l
  | p :: ps => replaceGo p ps rep 0 l

/-- Python `text.split('\n')`. -/
def splitNl : List Char → List (List Char)
  | [] => [[]]
  | c :: cs =>
    match splitNl cs with
    | [] => [[]]
    | r :: rs => if c = '\n' then [] :: r :: rs else (c :: r) :: rs

/-- Python `'\n'.join(lines)`. -/
def joinNl : List (List Char) → List Char
  | [] => []
  | [l] => l
  | l :: l2 :: ls => l ++ '\n' :: joinNl (l2 :: ls)

/-- Lowercase hex digit of a value below 16 (Python 2 hex codec). -/
def hexDigit (n : Nat) : Char :=
  if n < 10 then Char.ofNat (48 + n) else Char.ofNat (87 + n)

/-- Value of a hex digit; `none` on a non-hex character (the codec accepts
both cases). -/
def hexDigitVal (c : Char) : Option Nat :=
  if 48 ≤ c.toNat ∧ c.toNat ≤ 57 then some (c.toNat - 48)
  else if 97 ≤ c.toNat ∧ c.toNat ≤ 102 then some (c.toNat - 87)
  else if 65 ≤ c.toNat ∧ c.toNat ≤ 70 then some (c.toNat - 55)
  else none

/-- Python 2 `s.encode('hex')`: each byte becomes two lowercase digits. -/
def hexEncode : List Char → List Char
  | [] => []
  | c :: cs =>
    hexDigit (c.toNat % 256 / 16) :: hexDigit (c.toNat % 256 % 16) :: hexEncode cs

/-- Python 2 `s.decode('hex')`: fails on odd length or a non-hex digit. -/
def hexDecode : List Char → Option (List Char)
  | [] => some []
  | [_] => none
  | a :: b :: rest =>
    match hexDigitVal a, hexDigitVal b, hexDecode rest with
    | some x, some y, some r => some (Char.ofNat (16 * x + y) :: r)
    | _, _, _ => none

deriving instance DecidableEq for Except

/-! ## latex.py: the preprocessing pass (`latex.process`) -/

/-- Opening brace character. -/
def obr : Char := Char.ofNat 123

/-- Closing brace character. -/
def cbr : Char := Char.ofNat 125

/-- Apostrophe character. -/
def apos : Char := Char.ofNat 39

/-- Backtick character. -/
def btick : Char := Char.ofNat 96

/-- The inclusion-directive opener checked by `latex.process`. -/
def inputOpen : List Char := ['\\', 'i', 'n', 'p', 'u', 't', obr]

/-- The inclusion-directive closer. -/
def closeBrace : List Char := [cbr]

/-- Extension appended to the directive's identifier. -/
def texExt : List Char := ['.', 't', 'e', 'x']

/-- The literal-marker prefix recognised by `latex.process`. -/
def litMarker : List Char := ['-', '-', '|']

/-- The opaque marker wrapped around the hex payload. -/
def decodeMarker : List Char := ['.', 'd', 'e', 'c', 'o', 'd', 'e', 'm', 'e', '.']

/-- The comment-marker prefix whose lines are dropped before conversion. -/
def commentMarker : List Char := ['-', '#', '-']

/-- Double-backtick pattern normalised to a neutral quote. -/
def backtickPat : List Char := [btick, btick]

/-- Double-apostrophe pattern normalised to a neutral quote. -/
def quotePat : List Char := [apos, apos]

/-- Failures of the preprocessing pass.  `includeNotFound` models the
IOError Python raises when `open` cannot find the directive's target
(the spec's IncludeNotFoundError); `fuelOut` marks that the recursion
budget ran out, i.e. the source would still be recursing. -/
inductive PErr where
  | fuelOut
  | includeNotFound (fname : List Char)
deriving DecidableEq

/-- `latex.process` mapped over a list of lines.  The file system is a map
from the exact string handed to `open` to the file's contents.  A line whose
stripped form is an inclusion directive is replaced by the recursively
processed contents of `<identifier>.tex`; a line carrying the literal
marker is replaced by the hex payload wrapped in the opaque marker on its
own line; any other line has its quote pairs normalised.  `fuel` bounds the
recursion (the source has no bound). -/
def procLines (fs : List Char → Option (List Char)) :
    Nat → List (List Char) → Except PErr (List (List Char))
  | _, [] => Except.ok []
  | 0, _ :: _ => Except.error PErr.fuelOut
  | n + 1, line :: rest =>
    let sline := pyStrip line
    let hd :=
      if startsWith inputOpen sline && endsWith closeBrace sline then
        let fname := pyReplace closeBrace [] (pyReplace inputOpen [] sline) ++ texExt
        match fs fname with
        | none => Except.error (PErr.includeNotFound fname)
        | some text =>
          match procLines fs n (splitNl text) with
          | Except.error e => Except.error e
          | Except.ok rs => Except.ok ('\n' :: (joinNl rs ++ ['\n']))
      else if startsWith litMarker sline then
        Except.ok ('\n' :: (decodeMarker ++ hexEncode (pyReplace litMarker [] sline) ++ ['\n']))
      else
        Except.ok (pyReplace quotePat ['\"'] (pyReplace backtickPat ['\"'] line))
    match hd with
    | Except.error e => Except.error e
    | Except.ok r =>
      match procLines fs n rest with
      | Except.error e => Except.error e
      | Except.ok rs => Except.ok (r :: rs)

/-- `latex.process` on a single line. -/
def processLine (fs : List Char → Option (List Char)) (fuel : Nat) (line : List Char) :
    Except PErr (List Char) :=
  match procLines fs fuel [line] with
  | Except.error e => Except.error e
  | Except.ok rs => Except.ok (joinNl rs)

/-- The pre-conversion transform of `latex`: drop comment-marker lines,
process every remaining line, rejoin. -/
def preprocess (fs : List Char → Option (List Char)) (fuel : Nat) (text : List Char) :
    Except PErr (List Char) :=
  match procLines fs fuel ((splitNl text).filter fun l => !startsWith commentMarker l) with
  | Except.error e => Except.error e
  | Except.ok rs => Except.ok (joinNl rs)

/-! ## latex.py: the post-conversion pass (`latex.out_process`) -/

/-- Start of a LaTeX list environment, detected by `out_process`. -/
def beginEnum : List Char := "\\begin\x7benumerate\x7d".toList

/-- Spacing settings spliced in after a list start. -/
def enumSettings : List (List Char) :=
  [ "\\setlength\x7b\\parskip\x7d\x7b0pt\x7d".toList,
    "\\setlength\x7b\\topsep\x7d\x7b0pt\x7d".toList,
    "\\setlength\x7b\\partopsep\x7d\x7b-5pt\x7d".toList,
    "\\setlength\x7b\\itemsep\x7d\x7b0pt\x7d".toList,
    "\\setlength\x7b\\parsep\x7d\x7b0pt\x7d".toList ]

/-- `latex.out_process` on one converter-output line: a marker line is
hex-decoded (a bad payload raises, modelled as `Except.error ()`); a list
start gets the spacing settings appended; anything else passes through. -/
def outProcessLine (line : List Char) : Except Unit (List Char) :=
  let sline := pyStrip line
  if startsWith decodeMarker sline then
    match hexDecode (pyReplace decodeMarker [] sline) with
    | some r => Except.ok r
    | none => Except.error ()
  else if startsWith beginEnum sline then
    Except.ok (joinNl (line :: enumSettings) ++ ['\n'])
  else
    Except.ok line

/-- `out_process` mapped over the converter's output lines. -/
def outLines : List (List Char) → Except Unit (List (List Char))
  | [] => Except.ok []
  | l :: ls =>
    match outProcessLine l with
    | Except.error e => Except.error e
    | Except.ok r =>
      match outLines ls with
      | Except.error e => Except.error e
      | Except.ok rs => Except.ok (r :: rs)

/-- The post-conversion transform of `latex`: decode every output line and
rejoin. -/
def postprocess (out : List Char) : Except Unit (List Char) :=
  match outLines (splitNl out) with
  | Except.error e => Except.error e
  | Except.ok rs => Except.ok (joinNl rs)

/-! ## latex.py: document assembly and build orchestration (`main`) -/

/-- `bib_include()`: the bibliography-directive block. -/
def bib_include : List Char :=
  "\n\\bibliographystyle\x7bacm\x7d\n\\bibliography\x7bbibliography\x7d\n".toList

/-- One invocation of an external compile-stage tool. -/
inductive Pass where
  | compiler
  | bib
deriving DecidableEq

/-- The pass schedule of `main`: `pdflatex`, then — only when a
bibliography was supplied — `bibtex` followed by three more `pdflatex`
runs. -/
def passSeq (hasBib : Bool) : List Pass :=
  if hasBib then [Pass.compiler, Pass.bib, Pass.compiler, Pass.compiler, Pass.compiler]
  else [Pass.compiler]

/-- Run the scheduled passes; `ok k` tells whether the `k`-th external
invocation succeeds.  A failing invocation raises, so later passes are not
attempted; the returned list is the invocations actually performed and the
flag tells whether all of them succeeded. -/
def runPasses (ok : Nat → Bool) : List Pass → Nat → List Pass × Bool
  | [], _ => ([], true)
  | p :: ps, k =>
    if ok k then
      let r := runPasses ok ps (k + 1)
      (p :: r.1, r.2)
    else ([p], false)

/-- Observable outcome of one `main` build. -/
structure Trace where
  converterCalled : Bool
  wsCreated : Bool
  bibWritten : Bool
  assembled : Option (List Char)
  passes : List Pass
  buildOk : Bool
  recovery : Option (List Char)
deriving DecidableEq

/-- Trace of a build aborted before the workspace is created (a
preprocessing, conversion or decode failure inside `latex`). -/
def abortTrace (converterCalled : Bool) : Trace :=
  { converterCalled := converterCalled, wsCreated := false, bibWritten := false,
    assembled := none, passes := [], buildOk := false, recovery := none }

/-- `latex_text` as assembled by `main`: the bibliography-directive block is
inserted unless no bibliography was given or auto-include is suppressed. -/
def assembleDoc (hasBib noBibInclude : Bool) (hdr body ftr : List Char) : List Char :=
  if !hasBib || noBibInclude then hdr ++ body ++ ftr
  else hdr ++ body ++ bib_include ++ ftr

/-- Trace of a build that reached the workspace stage: the document (and
the bibliography, when given) is written, the passes run, and on any
failure `latex_text` is written to `page.tex` in the caller's original
directory before cleanup. -/
def stageTrace (ok : Nat → Bool) (harvestOk hasBib : Bool) (assembled : List Char) : Trace :=
  let r := runPasses ok (passSeq hasBib) 0
  let okAll := r.2 && harvestOk
  { converterCalled := true, wsCreated := true, bibWritten := hasBib,
    assembled := some assembled, passes := r.1, buildOk := okAll,
    recovery := if okAll then none else some assembled }

/-- The converted body produced by `latex`, when every stage succeeds:
preprocess, feed the converter (`conv`, `none` modelling a nonzero exit),
decode its output. -/
def pipelineBody (fs : List Char → Option (List Char)) (fuel : Nat)
    (conv : List Char → Option (List Char)) (text : List Char) : Option (List Char) :=
  match preprocess fs fuel text with
  | Except.error _ => none
  | Except.ok pre =>
    match conv pre with
    | none => none
    | some out =>
      match postprocess out with
      | Except.error _ => none
      | Except.ok body => some body

/-- `main` from the point where the input text is in hand: run `latex`
(preprocess → converter → decode), assemble `latex_text`, then create the
workspace, stage the files and drive the passes.  `harvestOk` tells whether
reading the produced artifact succeeds. -/
def mainModel (fs : List Char → Option (List Char)) (fuel : Nat)
    (conv : List Char → Option (List Char)) (ok : Nat → Bool) (harvestOk : Bool)
    (hasBib noBibInclude : Bool) (text hdr ftr : List Char) : Trace :=
  match preprocess fs fuel text with
  | Except.error _ => abortTrace false
  | Except.ok pre =>
    match conv pre with
    | none => abortTrace true
    | some out =>
      match postprocess out with
      | Except.error _ => abortTrace true
      | Except.ok body =>
        stageTrace ok harvestOk hasBib (assembleDoc hasBib noBibInclude hdr body ftr)

/-! ## latex.py: compiler failure detection (`pdflatex`) -/

/-- The diagnostic that marks an unusable run even on a zero exit code. -/
def noPages : List Char := "? No pages of output.".toList

/-- The `pdflatex` wrapper: raises (returns `Except.error` with the
captured output) when the exit code is nonzero or the diagnostic appears in
the captured standard output. -/
def pdflatexRun (returncode : Int) (out err : List Char) :
    Except (List Char × List Char) Unit :=
  if returncode ≠ 0 ∨ occurs noPages out = true then Except.error (out, err)
  else Except.ok ()

/-! ## latex.py: workspace cleanup (the `finally` block of `main`) -/

/-- `try: os.unlink f; except: pass` on a workspace modelled as the list of
file names it currently holds. -/
def unlinkTry (ws : List String) (f : String) : List String := ws.erase f

/-- The single `try` block covering the nav, snm and toc unlinks: a missing
file raises, abandoning the rest of the block (the exception is then
swallowed). -/
def navSnmToc (ws : List String) : List String :=
  if "page.nav" ∈ ws then
    let w1 := ws.erase "page.nav"
    if "page.snm" ∈ w1 then
      let w2 := w1.erase "page.snm"
      if "page.toc" ∈ w2 then w2.erase "page.toc" else w2
    else w1
  else ws

/-- The `finally` block of `main`: remove the staged include trees, unlink
the known side artifacts (each in its own guard, except nav/snm/toc which
share one, and the bibliography files only when a bibliography was given —
the `bibliography.bib` unlink itself is unguarded), then `os.rmdir` the
workspace, which raises if anything is left.  `Except.ok ()` means the
workspace directory is gone; `Except.error ws` means an exception escaped
the block and the directory remains on disk holding `ws`. -/
def cleanup (ws0 : List String) (hasBib : Bool) (includeNames : List String) :
    Except (List String) Unit :=
  let ws1 := includeNames.foldl (fun w n => w.erase n) ws0
  let ws2 := unlinkTry (unlinkTry (unlinkTry (unlinkTry (unlinkTry ws1
    "page.pdf") "page.tex") "page.aux") "page.log") "page.out"
  let ws3 := navSnmToc ws2
  if hasBib then
    if "bibliography.bib" ∈ ws3 then
      let ws4 := unlinkTry (unlinkTry (ws3.erase "bibliography.bib") "page.bbl") "page.blg"
      if ws4.isEmpty then Except.ok () else Except.error ws4
    else Except.error ws3
  else
    if ws3.isEmpty then Except.ok () else Except.error ws3

/-! ## html.py: header assembly -/

/-- `css(path)`: the empty string when no path is given, otherwise the
referenced file's contents stripped of leading and trailing whitespace.
The file's contents stand in for the path. -/
def css (contents : Option (List Char)) : List Char :=
  match contents with
  | none => []
  | some s => pyStrip s

/-- The fixed page skeleton of `html.header` around the two insertion
points. -/
def htmlSkel1 : List Char := "\n<!doctype html>\n<head>\n<meta charset=\"utf-8\">\n<title>".toList

/-- Skeleton between title and style. -/
def htmlSkel2 : List Char := "</title>\n<style>\n".toList

/-- Skeleton after the style. -/
def htmlSkel3 : List Char := "\n</style>\n</head>\n".toList

/-- `html.header`: the skeleton embedding the title and `css` of the
stylesheet. -/
def htmlHeader (title : List Char) (cssContents : Option (List Char)) : List Char :=
  htmlSkel1 ++ title ++ htmlSkel2 ++ css cssContents ++ htmlSkel3

/-- The header as the specification words it: the skeleton embedding the
title and the *verbatim* contents of the stylesheet (empty when none is
given).  Kept separate from `htmlHeader` so the two can be compared. -/
def htmlHeaderSpec (title : List Char) (cssContents : Option (List Char)) : List Char :=
  htmlSkel1 ++ title ++ htmlSkel2 ++
    (match cssContents with | none => [] | some s => s) ++ htmlSkel3

/-! ## Concrete fixtures -/

/-- An empty file store. -/
def fsEmpty : List Char → Option (List Char) := fun _ => none

/-- The self-including line of the cyclic fixture. -/
def cycLine : List Char := inputOpen ++ ['a'] ++ closeBrace

/-- Name of the cyclic fixture file. -/
def aTex : List Char := ['a'] ++ texExt

/-- A file store in which `a.tex` includes itself. -/
def fsCyc : List Char → Option (List Char) :=
  fun n => if n = aTex then some cycLine else none

/-! ## Helper lemmas: prefixes, occurrences, replacement -/

theorem startsWith_append (p l : List Char) : startsWith p (p ++ l) = true := by
  induction p with
  | nil => rfl
  | cons c cs ih => simp [startsWith, ih]

theorem startsWith_head_mem (p : Char) (ps l : List Char)
    (h : startsWith (p :: ps) l = true) : p ∈ l := by
  cases l with
  | nil => simp [startsWith] at h
  | cons c cs =>
    simp only [startsWith, Bool.and_eq_true, decide_eq_true_eq] at h
    exact h.1 ▸ List.mem_cons_self c cs

theorem occurs_false_of_head_notMem (p : Char) (ps l : List Char)
    (h : p ∉ l) : occurs (p :: ps) l = false := by
  induction l with
  | nil => rfl
  | cons c cs ih =>
    have hpc : p ≠ c := fun hp => h (hp ▸ List.mem_cons_self c cs)
    have hcs : p ∉ cs := fun hp => h (List.mem_cons_of_mem c hp)
    simp [occurs, startsWith, hpc, ih hcs]

theorem occurs_of_startsWith (pat l : List Char)
    (h : startsWith pat l = true) : occurs pat l = true := by
  cases l with
  | nil => simpa [occurs] using h
  | cons c cs => simp [occurs, h]

theorem occurs_cons_of_occurs (pat : List Char) (c : Char) (l : List Char)
    (h : occurs pat l = true) : occurs pat (c :: l) = true := by
  simp [occurs, h]

theorem endsWith_append (s l : List Char) : endsWith s (l ++ s) = true := by
  unfold endsWith
  rw [List.reverse_append]
  exact startsWith_append s.reverse l.reverse

theorem replaceGo_skip (p : Char) (ps rep : List Char) (l1 l2 : List Char) :
    replaceGo p ps rep l1.length (l1 ++ l2) = replaceGo p ps rep 0 l2 := by
  induction l1 with
  | nil => rfl
  | cons c cs ih => exact ih

theorem replaceGo_no_occurs (p : Char) (ps rep l : List Char)
    (h : occurs (p :: ps) l = false) : replaceGo p ps rep 0 l = l := by
  induction l with
  | nil => rfl
  | cons c cs ih =>
    simp only [occurs, Bool.or_eq_false_iff] at h
    simp [replaceGo, h.1, ih h.2]

theorem replaceGo_pre (p : Char) (ps rep l : List Char) :
    replaceGo p ps rep 0 ((p :: ps) ++ l) = rep ++ replaceGo p ps rep 0 l := by
  have hpre : startsWith (p :: ps) (p :: (ps ++ l)) = true := by
    rw [← List.cons_append]
    exact startsWith_append _ _
  show replaceGo p ps rep 0 (p :: (ps ++ l)) = _
  rw [replaceGo, hpre]
  simp only [if_true]
  congr 1
  exact replaceGo_skip p ps rep ps l

theorem pyReplace_marker_of_no_occurs (pat rep P : List Char) (hne : pat ≠ [])
    (h : occurs pat P = false) : pyReplace pat rep (pat ++ P) = rep ++ P := by
  cases pat with
  | nil => exact absurd rfl hne
  | cons p ps =>
    show replaceGo p ps rep 0 ((p :: ps) ++ P) = rep ++ P
    rw [replaceGo_pre, replaceGo_no_occurs p ps rep P h]

theorem pyReplace_id_of_no_occurs (pat rep P : List Char)
    (h : occurs pat P = false) : pyReplace pat rep P = P := by
  cases pat with
  | nil => rfl
  | cons p ps => exact replaceGo_no_occurs p ps rep P h

/-! ## Helper lemmas: stripping -/

theorem dropWhile_all_false (p : Char → Bool) (l : List Char)
    (h : ∀ c ∈ l, p c = false) : l.dropWhile p = l := by
  cases l with
  | nil => rfl
  | cons c cs => simp [List.dropWhile_cons, h c (List.mem_cons_self c cs)]

theorem pyStrip_all_false (l : List Char) (h : ∀ c ∈ l, isPySpace c = false) :
    pyStrip l = l := by
  unfold pyStrip
  rw [dropWhile_all_false _ l h]
  rw [dropWhile_all_false _ l.reverse (fun c hc => h c (List.mem_reverse.mp hc))]
  exact List.reverse_reverse l

theorem pyStrip_litMarker (P : List Char)
    (h : ∀ c, P.getLast? = some c → isPySpace c = false) :
    pyStrip (litMarker ++ P) = litMarker ++ P := by
  have hdash : isPySpace '-' = false := by decide
  have h1 : (litMarker ++ P).dropWhile isPySpace = litMarker ++ P := by
    show List.dropWhile isPySpace ('-' :: ('-' :: '|' :: P)) = _
    rw [List.dropWhile_cons, hdash]
    simp [litMarker]
  have h2 : (litMarker ++ P).reverse.dropWhile isPySpace = (litMarker ++ P).reverse := by
    rcases List.eq_nil_or_concat P with hP | ⟨L, b, hP⟩
    · subst hP
      decide
    · subst hP
      have hb : isPySpace b = false := h b (by simp)
      rw [List.concat_eq_append, ← List.append_assoc, List.reverse_append]
      simp only [List.reverse_cons, List.reverse_nil, List.nil_append, List.singleton_append]
      rw [List.dropWhile_cons, hb]
      simp
  unfold pyStrip
  rw [h1, h2, List.reverse_reverse]

/-! ## Helper lemmas: hex codec -/

theorem hexDigitVal_hexDigit (m : Nat) (h : m < 16) :
    hexDigitVal (hexDigit m) = some m := by
  interval_cases m <;> decide

theorem isPySpace_hexDigit (m : Nat) (h : m < 16) : isPySpace (hexDigit m) = false := by
  interval_cases m <;> decide

theorem hexDigit_ne_dot (m : Nat) (h : m < 16) : hexDigit m ≠ '.' := by
  interval_cases m <;> decide

theorem mem_hexEncode (c : Char) (P : List Char) (h : c ∈ hexEncode P) :
    ∃ m, m < 16 ∧ c = hexDigit m := by
  induction P with
  | nil => simp [hexEncode] at h
  | cons a as ih =>
    have hlt : a.toNat % 256 < 256 := Nat.mod_lt _ (by norm_num)
    simp only [hexEncode, List.mem_cons] at h
    rcases h with h | h | h
    · exact ⟨a.toNat % 256 / 16, Nat.div_lt_of_lt_mul (by omega), h⟩
    · exact ⟨a.toNat % 256 % 16, Nat.mod_lt _ (by norm_num), h⟩
    · exact ih h

theorem hexDecode_hexEncode (P : List Char) (h : ∀ c ∈ P, c.toNat < 256) :
    hexDecode (hexEncode P) = some P := by
  induction P with
  | nil => rfl
  | cons c cs ih =>
    have hc : c.toNat < 256 := h c (List.mem_cons_self c cs)
    have hmod : c.toNat % 256 = c.toNat := Nat.mod_eq_of_lt hc
    have hdiv : c.toNat % 256 / 16 < 16 := Nat.div_lt_of_lt_mul (by omega)
    have hrem : c.toNat % 256 % 16 < 16 := Nat.mod_lt _ (by norm_num)
    have hcs := ih (fun a ha => h a (List.mem_cons_of_mem c ha))
    show hexDecode
      (hexDigit (c.toNat % 256 / 16) :: hexDigit (c.toNat % 256 % 16) :: hexEncode cs) = _
    rw [hexDecode, hexDigitVal_hexDigit _ hdiv, hexDigitVal_hexDigit _ hrem, hcs]
    have hchar : Char.ofNat (16 * (c.toNat % 256 / 16) + c.toNat % 256 % 16) = c := by
      rw [Nat.div_add_mod (c.toNat % 256) 16, hmod]
      exact Char.ofNat_toNat c
    simp [hchar]

/-! ## Helper lemmas: splitting and joining lines -/

theorem splitNl_ne_nil (l : List Char) : splitNl l ≠ [] := by
  cases l with
  | nil => simp [splitNl]
  | cons c cs =>
    rw [splitNl]
    rcases hs : splitNl cs with _ | ⟨r, rs⟩
    · simp
    · dsimp only
      split <;> simp

theorem joinNl_splitNl (l : List Char) : joinNl (splitNl l) = l := by
  induction l with
  | nil => rfl
  | cons c cs ih =>
    rw [splitNl]
    rcases hs : splitNl cs with _ | ⟨r, rs⟩
    · exact absurd hs (splitNl_ne_nil cs)
    · rw [hs] at ih
      by_cases hc : c = '\n'
      · subst hc
        simp only [if_pos rfl]
        show joinNl ([] :: r :: rs) = '\n' :: cs
        rw [joinNl]
        simp [ih]
      · simp only [if_neg hc]
        cases rs with
        | nil =>
          show joinNl [c :: r] = c :: cs
          have hr : joinNl [r] = r := rfl
          rw [hr] at ih
          simp [joinNl, ih]
        | cons r2 rs2 =>
          show joinNl ((c :: r) :: r2 :: rs2) = c :: cs
          rw [joinNl] at ih ⊢
          simp only [List.cons_append]
          rw [ih]

theorem mem_of_mem_splitNl (X : List Char) :
    ∀ l ∈ splitNl X, ∀ c ∈ l, c ∈ X := by
  induction X with
  | nil =>
    intro l hl c hc
    simp only [splitNl, List.mem_singleton] at hl
    subst hl
    simp at hc
  | cons x xs ih =>
    intro l hl c hc
    rw [splitNl] at hl
    rcases hs : splitNl xs with _ | ⟨r, rs⟩
    · exact absurd hs (splitNl_ne_nil xs)
    · rw [hs] at hl
      have hl2 : l ∈ (if x = '\n' then [] :: r :: rs else (x :: r) :: rs) := hl
      by_cases hx : x = '\n'
      · rw [if_pos hx] at hl2
        rcases List.mem_cons.mp hl2 with h1 | h1
        · subst h1
          simp at hc
        · exact List.mem_cons_of_mem x (ih l (by rw [hs]; exact h1) c hc)
      · rw [if_neg hx] at hl2
        rcases List.mem_cons.mp hl2 with h1 | h1
        · subst h1
          rcases List.mem_cons.mp hc with h2 | h2
          · exact h2 ▸ List.mem_cons_self x xs
          · exact List.mem_cons_of_mem x
              (ih r (by rw [hs]; exact List.mem_cons_self r rs) c h2)
        · exact List.mem_cons_of_mem x
            (ih l (by rw [hs]; exact List.mem_cons_of_mem r h1) c hc)

theorem mem_pyStrip (l : List Char) (c : Char) (h : c ∈ pyStrip l) : c ∈ l := by
  unfold pyStrip at h
  rw [List.mem_reverse] at h
  have h2 := (List.dropWhile_sublist isPySpace).subset h
  rw [List.mem_reverse] at h2
  exact (List.dropWhile_sublist isPySpace).subset h2


/-! ## Helper lemmas: processing plain lines -/

theorem startsWith_cons_false (p c : Char) (ps cs : List Char) (h : p ≠ c) :
    startsWith (p :: ps) (c :: cs) = false := by
  simp [startsWith, h]

theorem procLines_nil (fs : List Char → Option (List Char)) (n : Nat) :
    procLines fs n [] = Except.ok [] := by
  cases n <;> rfl

theorem procLines_cons_plain (fs : List Char → Option (List Char)) (n : Nat)
    (line : List Char) (rest : List (List Char))
    (h1 : (startsWith inputOpen (pyStrip line) && endsWith closeBrace (pyStrip line)) = false)
    (h2 : startsWith litMarker (pyStrip line) = false)
    (h3 : occurs backtickPat line = false)
    (h4 : occurs quotePat line = false) :
    procLines fs (n + 1) (line :: rest) =
      match procLines fs n rest with
      | Except.error e => Except.error e
      | Except.ok rs => Except.ok (line :: rs) := by
  rw [procLines]
  simp only [h1, h2, Bool.false_eq_true, if_false]
  rw [pyReplace_id_of_no_occurs _ _ _ h3, pyReplace_id_of_no_occurs _ _ _ h4]

theorem procLines_all_plain (fs : List Char → Option (List Char)) (ls : List (List Char))
    (h : ∀ l ∈ ls,
      (startsWith inputOpen (pyStrip l) && endsWith closeBrace (pyStrip l)) = false ∧
      startsWith litMarker (pyStrip l) = false ∧
      occurs backtickPat l = false ∧ occurs quotePat l = false) :
    ∀ n, ls.length ≤ n → procLines fs n ls = Except.ok ls := by
  induction ls with
  | nil => intro n _; exact procLines_nil fs n
  | cons l ls ih =>
    intro n hn
    cases n with
    | zero => simp at hn
    | succ m =>
      obtain ⟨h1, h2, h3, h4⟩ := h l (List.mem_cons_self l ls)
      have hm : ls.length ≤ m := by
        simp only [List.length_cons] at hn
        omega
      rw [procLines_cons_plain fs m l ls h1 h2 h3 h4,
        ih (fun x hx => h x (List.mem_cons_of_mem l hx)) m hm]

theorem plain_of_chars (X l : List Char) (hl : l ∈ splitNl X)
    (hb : '\\' ∉ X) (hbt : btick ∉ X) (hap : apos ∉ X)
    (hmk : startsWith litMarker (pyStrip l) = false) :
    (startsWith inputOpen (pyStrip l) && endsWith closeBrace (pyStrip l)) = false ∧
    startsWith litMarker (pyStrip l) = false ∧
    occurs backtickPat l = false ∧ occurs quotePat l = false := by
  have hsub : ∀ c, c ∈ l → c ∈ X := mem_of_mem_splitNl X l hl
  refine ⟨?_, hmk, ?_, ?_⟩
  · have hsw : startsWith inputOpen (pyStrip l) = false := by
      by_contra hcon
      rw [Bool.not_eq_false] at hcon
      have hmem : '\\' ∈ pyStrip l := startsWith_head_mem '\\' _ _ hcon
      exact hb (hsub _ (mem_pyStrip l _ hmem))
    rw [hsw, Bool.false_and]
  · refine occurs_false_of_head_notMem btick _ l (fun hc => hbt (hsub _ hc))
  · refine occurs_false_of_head_notMem apos _ l (fun hc => hap (hsub _ hc))

theorem replace_single_concat (p : Char) (rep l : List Char) (h : p ∉ l) :
    pyReplace [p] rep (l ++ [p]) = l ++ rep := by
  induction l with
  | nil =>
    show replaceGo p [] rep 0 [p] = [] ++ rep
    rw [replaceGo]
    have hsw : startsWith [p] [p] = true := by simp [startsWith]
    rw [hsw]
    simp [replaceGo]
  | cons c cs ih =>
    have hpc : p ≠ c := fun hp => h (hp ▸ List.mem_cons_self c cs)
    have hcs : p ∉ cs := fun hp => h (List.mem_cons_of_mem c hp)
    show replaceGo p [] rep 0 (c :: (cs ++ [p])) = c :: (cs ++ rep)
    rw [replaceGo, startsWith_cons_false p c [] (cs ++ [p]) hpc]
    simp only [Bool.false_eq_true, if_false]
    exact congrArg (c :: ·) (ih hcs)

/-! ## Helper lemmas: the orchestration model -/

theorem runPasses_complete (ok : Nat → Bool) (l : List Pass) :
    ∀ k, (runPasses ok l k).2 = true → (runPasses ok l k).1 = l := by
  induction l with
  | nil => intro k _; rfl
  | cons p ps ih =>
    intro k h
    by_cases hk : ok k = true
    · have hs : (runPasses ok (p :: ps) k) =
        (p :: (runPasses ok ps (k + 1)).1, (runPasses ok ps (k + 1)).2) := by
        rw [runPasses, hk]
        simp
      rw [hs] at h ⊢
      exact congrArg (p :: ·) (ih (k + 1) h)
    · rw [Bool.not_eq_true] at hk
      have hs : (runPasses ok (p :: ps) k) = ([p], false) := by
        rw [runPasses, hk]
        simp
      rw [hs] at h
      simp at h

theorem mainModel_eq_stage (fs : List Char → Option (List Char)) (fuel : Nat)
    (conv : List Char → Option (List Char)) (ok : Nat → Bool) (harvestOk : Bool)
    (hasBib noBib : Bool) (text hdr ftr body : List Char)
    (h : pipelineBody fs fuel conv text = some body) :
    mainModel fs fuel conv ok harvestOk hasBib noBib text hdr ftr =
      stageTrace ok harvestOk hasBib (assembleDoc hasBib noBib hdr body ftr) := by
  unfold pipelineBody at h
  unfold mainModel
  rcases hp : preprocess fs fuel text with e | pre
  · simp only [hp] at h
    exact absurd h (by simp)
  · simp only [hp] at h ⊢
    rcases hc : conv pre with _ | out
    · simp only [hc] at h
      exact absurd h (by simp)
    · simp only [hc] at h ⊢
      rcases ho : postprocess out with e2 | body2
      · simp only [ho] at h
        exact absurd h (by simp)
      · simp only [ho] at h ⊢
        have hbody : body2 = body := by simpa using h
        rw [hbody]

theorem pipelineBody_of_wsCreated (fs : List Char → Option (List Char)) (fuel : Nat)
    (conv : List Char → Option (List Char)) (ok : Nat → Bool) (harvestOk : Bool)
    (hasBib noBib : Bool) (text hdr ftr : List Char)
    (h : (mainModel fs fuel conv ok harvestOk hasBib noBib text hdr ftr).wsCreated = true) :
    ∃ body, pipelineBody fs fuel conv text = some body := by
  unfold mainModel at h
  rcases hp : preprocess fs fuel text with e | pre
  · simp only [hp] at h
    simp [abortTrace] at h
  · simp only [hp] at h
    rcases hc : conv pre with _ | out
    · simp only [hc] at h
      simp [abortTrace] at h
    · simp only [hc] at h
      rcases ho : postprocess out with e2 | body
      · simp only [ho] at h
        simp [abortTrace] at h
      · refine ⟨body, ?_⟩
        unfold pipelineBody
        simp only [hp, hc, ho]

theorem pipelineBody_of_buildOk (fs : List Char → Option (List Char)) (fuel : Nat)
    (conv : List Char → Option (List Char)) (ok : Nat → Bool) (harvestOk : Bool)
    (hasBib noBib : Bool) (text hdr ftr : List Char)
    (h : (mainModel fs fuel conv ok harvestOk hasBib noBib text hdr ftr).buildOk = true) :
    ∃ body, pipelineBody fs fuel conv text = some body := by
  unfold mainModel at h
  rcases hp : preprocess fs fuel text with e | pre
  · simp only [hp] at h
    simp [abortTrace] at h
  · simp only [hp] at h
    rcases hc : conv pre with _ | out
    · simp only [hc] at h
      simp [abortTrace] at h
    · simp only [hc] at h
      rcases ho : postprocess out with e2 | body
      · simp only [ho] at h
        simp [abortTrace] at h
      · refine ⟨body, ?_⟩
        unfold pipelineBody
        simp only [hp, hc, ho]

/-! ## Claim theorems -/

/-- C3 (code bug): the cleanup of `main` does not always remove the
workspace.  When the compiler leaves a `page.toc` behind without a
`page.nav` (an article with a table of contents), the single guard around
the nav/snm/toc unlinks aborts at the missing `page.nav`, the `page.toc`
survives, and the final non-recursive `rmdir` raises — the workspace
directory remains on disk still holding `page.toc`. -/
theorem cleanup_toc_leftover_bug :
    cleanup ["page.tex", "page.pdf", "page.aux", "page.log", "page.toc"] false [] =
      Except.error ["page.toc"] := by decide

/-- C6: a `pdflatex` invocation is treated as failed exactly when the exit
code is nonzero or the captured output contains the no-pages diagnostic; in
particular a zero exit with the diagnostic present still raises. -/
theorem pdflatex_failure_iff (returncode : Int) (out err : List Char) :
    (pdflatexRun returncode out err = Except.error (out, err) ↔
      returncode ≠ 0 ∨ occurs noPages out = true) ∧
    (pdflatexRun returncode out err = Except.ok () ↔
      returncode = 0 ∧ occurs noPages out = false) := by
  by_cases h : returncode ≠ 0 ∨ occurs noPages out = true
  · unfold pdflatexRun
    rw [if_pos h]
    refine ⟨⟨fun _ => h, fun _ => rfl⟩, ?_, ?_⟩
    · intro hh
      exact absurd hh (by simp)
    · rintro ⟨h0, hocc⟩
      rcases h with h | h
      · exact absurd h0 h
      · rw [hocc] at h
        exact absurd h (by simp)
  · have hcon := h
    push_neg at hcon
    obtain ⟨h0, hocc⟩ := hcon
    have hocc2 : occurs noPages out = false := by simpa using hocc
    unfold pdflatexRun
    rw [if_neg h]
    refine ⟨⟨?_, ?_⟩, fun _ => ⟨h0, hocc2⟩, fun _ => rfl⟩
    · intro hh
      exact absurd hh (by simp)
    · intro hd
      exact absurd hd h

/-- C6 witness: a zero exit code whose output contains the diagnostic is
still a failure. -/
theorem pdflatex_failure_iff_wit :
    pdflatexRun 0 noPages [] = Except.error (noPages, []) :=
  (pdflatex_failure_iff 0 noPages []).1.mpr (Or.inr (by decide))

/-- C9 counterexample: the HTML header does not embed the stylesheet
verbatim — a trailing newline in the stylesheet file is stripped. -/
theorem html_header_verbatim_cex :
    htmlHeader "T".toList (some "a\n".toList) ≠
      htmlHeaderSpec "T".toList (some "a\n".toList) := by decide

/-- C9 (amended): the HTML header is the fixed skeleton embedding the
configured title and the stylesheet contents stripped of leading and
trailing whitespace (hence verbatim whenever the contents carry none), and
the empty string takes the stylesheet's place when no path is given. -/
theorem html_header_stripped (title : List Char) (c : Option (List Char)) :
    htmlHeader title c = htmlHeaderSpec title (c.map pyStrip) := by
  cases c <;> rfl

/-- C7: when preprocessing fails, `main` aborts before the converter is
invoked, before any compile pass runs and before the workspace directory is
created. -/
theorem preprocess_error_aborts_early (fs : List Char → Option (List Char)) (fuel : Nat)
    (conv : List Char → Option (List Char)) (ok : Nat → Bool) (harvestOk : Bool)
    (hasBib noBib : Bool) (text hdr ftr : List Char) (e : PErr)
    (h : preprocess fs fuel text = Except.error e) :
    (mainModel fs fuel conv ok harvestOk hasBib noBib text hdr ftr).converterCalled = false ∧
    (mainModel fs fuel conv ok harvestOk hasBib noBib text hdr ftr).wsCreated = false ∧
    (mainModel fs fuel conv ok harvestOk hasBib noBib text hdr ftr).passes = [] := by
  unfold mainModel
  simp only [h]
  exact ⟨rfl, rfl, rfl⟩

/-- C7 witness: an inclusion directive whose target is missing makes
preprocessing fail with the include-not-found error, and the build spawns
nothing and creates no workspace. -/
theorem preprocess_error_aborts_early_wit :
    (mainModel fsEmpty 2 (fun s => some s) (fun _ => true) true false false
      (inputOpen ++ "missing".toList ++ closeBrace) [] []).converterCalled = false ∧
    (mainModel fsEmpty 2 (fun s => some s) (fun _ => true) true false false
      (inputOpen ++ "missing".toList ++ closeBrace) [] []).wsCreated = false ∧
    (mainModel fsEmpty 2 (fun s => some s) (fun _ => true) true false false
      (inputOpen ++ "missing".toList ++ closeBrace) [] []).passes = [] :=
  preprocess_error_aborts_early fsEmpty 2 (fun s => some s) (fun _ => true) true false false
    (inputOpen ++ "missing".toList ++ closeBrace) [] []
    (PErr.includeNotFound ("missing".toList ++ texExt)) (by decide)

/-- C2 counterexample: a build with a bibliography whose first compiler
pass fails invokes the compiler once and the bibliography processor never —
the claim's unconditional "at least three compiler passes and exactly one
bibliography pass" fails on failing builds. -/
theorem multipass_cex :
    (mainModel fsEmpty 1 (fun s => some s) (fun _ => false) true true false
      [] [] []).bibWritten = true ∧
    (mainModel fsEmpty 1 (fun s => some s) (fun _ => false) true true false
      [] [] []).passes.count Pass.compiler = 1 ∧
    (mainModel fsEmpty 1 (fun s => some s) (fun _ => false) true true false
      [] [] []).passes.count Pass.bib = 0 := by decide

/-- C2 (amended): for every build whose compile stage completes with every
external invocation succeeding, the pass list is the full schedule: with a
bibliography, a compiler pass, then the bibliography pass, then three more
compiler passes (so at least three compiler invocations and exactly one
bibliography invocation); with no bibliography, exactly one compiler
pass. -/
theorem multipass_amended (fs : List Char → Option (List Char)) (fuel : Nat)
    (conv : List Char → Option (List Char)) (ok : Nat → Bool) (harvestOk : Bool)
    (hasBib noBib : Bool) (text hdr ftr : List Char)
    (h : (mainModel fs fuel conv ok harvestOk hasBib noBib text hdr ftr).buildOk = true) :
    (mainModel fs fuel conv ok harvestOk hasBib noBib text hdr ftr).passes = passSeq hasBib ∧
    (hasBib = true →
      (mainModel fs fuel conv ok harvestOk hasBib noBib text hdr ftr).passes.count
        Pass.compiler = 4 ∧
      (mainModel fs fuel conv ok harvestOk hasBib noBib text hdr ftr).passes.count
        Pass.bib = 1) ∧
    (hasBib = false →
      (mainModel fs fuel conv ok harvestOk hasBib noBib text hdr ftr).passes =
        [Pass.compiler]) := by
  obtain ⟨body, hp⟩ := pipelineBody_of_buildOk fs fuel conv ok harvestOk hasBib noBib
    text hdr ftr h
  rw [mainModel_eq_stage fs fuel conv ok harvestOk hasBib noBib text hdr ftr body hp] at h ⊢
  have h2 : ((runPasses ok (passSeq hasBib) 0).2 && harvestOk) = true := h
  have hsnd : (runPasses ok (passSeq hasBib) 0).2 = true := by
    rw [Bool.and_eq_true] at h2
    exact h2.1
  have hmain : (stageTrace ok harvestOk hasBib
      (assembleDoc hasBib noBib hdr body ftr)).passes = passSeq hasBib := by
    show (runPasses ok (passSeq hasBib) 0).1 = passSeq hasBib
    exact runPasses_complete ok (passSeq hasBib) 0 hsnd
  refine ⟨hmain, fun hb => ?_, fun hb => ?_⟩
  · rw [hmain, hb]
    exact ⟨by decide, by decide⟩
  · rw [hmain, hb]
    decide

/-- C2 witness: a fully successful build with a bibliography runs the
schedule compiler, bibliography, compiler, compiler, compiler. -/
theorem multipass_amended_wit :
    (mainModel fsEmpty 1 (fun s => some s) (fun _ => true) true true false
      [] [] []).passes = passSeq true ∧
    (true = true →
      (mainModel fsEmpty 1 (fun s => some s) (fun _ => true) true true false
        [] [] []).passes.count Pass.compiler = 4 ∧
      (mainModel fsEmpty 1 (fun s => some s) (fun _ => true) true true false
        [] [] []).passes.count Pass.bib = 1) ∧
    (true = false →
      (mainModel fsEmpty 1 (fun s => some s) (fun _ => true) true true false
        [] [] []).passes = [Pass.compiler]) :=
  multipass_amended fsEmpty 1 (fun s => some s) (fun _ => true) true true false
    [] [] [] (by decide)

/-- C4: whenever a build that reached the workspace stage fails, the text
written to the fixed recovery file in the caller's original directory is
exactly the assembled document that was attempted. -/
theorem failure_recovery_writes_assembled (fs : List Char → Option (List Char)) (fuel : Nat)
    (conv : List Char → Option (List Char)) (ok : Nat → Bool) (harvestOk : Bool)
    (hasBib noBib : Bool) (text hdr ftr : List Char)
    (hws : (mainModel fs fuel conv ok harvestOk hasBib noBib text hdr ftr).wsCreated = true)
    (hfail : (mainModel fs fuel conv ok harvestOk hasBib noBib text hdr ftr).buildOk = false) :
    ∃ a, (mainModel fs fuel conv ok harvestOk hasBib noBib text hdr ftr).assembled = some a ∧
      (mainModel fs fuel conv ok harvestOk hasBib noBib text hdr ftr).recovery = some a := by
  obtain ⟨body, hp⟩ := pipelineBody_of_wsCreated fs fuel conv ok harvestOk hasBib noBib
    text hdr ftr hws
  rw [mainModel_eq_stage fs fuel conv ok harvestOk hasBib noBib text hdr ftr body hp] at hfail ⊢
  refine ⟨assembleDoc hasBib noBib hdr body ftr, rfl, ?_⟩
  have h2 : ((runPasses ok (passSeq hasBib) 0).2 && harvestOk) = false := hfail
  show (if ((runPasses ok (passSeq hasBib) 0).2 && harvestOk) = true then none
    else some (assembleDoc hasBib noBib hdr body ftr)) = some (assembleDoc hasBib noBib hdr body ftr)
  rw [h2]
  simp

/-- C4 witness: a concrete build whose only compiler pass fails recovers
exactly the assembled header-body-footer text. -/
theorem failure_recovery_writes_assembled_wit :
    ∃ a, (mainModel fsEmpty 1 (fun s => some s) (fun _ => false) true false false
      [] "H".toList "F".toList).assembled = some a ∧
    (mainModel fsEmpty 1 (fun s => some s) (fun _ => false) true false false
      [] "H".toList "F".toList).recovery = some a :=
  failure_recovery_writes_assembled fsEmpty 1 (fun s => some s) (fun _ => false) true
    false false [] "H".toList "F".toList (by decide) (by decide)

/-- C10: with a bibliography supplied and auto-include suppressed, the
suppression only omits the bibliography-directive block from the assembled
document; the bibliography file is still written into the workspace and the
attempted pass sequence is identical to the auto-include case. -/
theorem no_bib_include_keeps_pipeline (fs : List Char → Option (List Char)) (fuel : Nat)
    (conv : List Char → Option (List Char)) (ok : Nat → Bool) (harvestOk : Bool)
    (text hdr ftr : List Char)
    (hws : (mainModel fs fuel conv ok harvestOk true true text hdr ftr).wsCreated = true) :
    (mainModel fs fuel conv ok harvestOk true true text hdr ftr).bibWritten = true ∧
    (mainModel fs fuel conv ok harvestOk true true text hdr ftr).passes =
      (mainModel fs fuel conv ok harvestOk true false text hdr ftr).passes ∧
    ∃ body,
      (mainModel fs fuel conv ok harvestOk true true text hdr ftr).assembled =
        some (hdr ++ body ++ ftr) ∧
      (mainModel fs fuel conv ok harvestOk true false text hdr ftr).assembled =
        some (hdr ++ body ++ bib_include ++ ftr) := by
  obtain ⟨body, hp⟩ := pipelineBody_of_wsCreated fs fuel conv ok harvestOk true true
    text hdr ftr hws
  rw [mainModel_eq_stage fs fuel conv ok harvestOk true true text hdr ftr body hp,
    mainModel_eq_stage fs fuel conv ok harvestOk true false text hdr ftr body hp]
  refine ⟨rfl, rfl, body, ?_, ?_⟩
  · show some (assembleDoc true true hdr body ftr) = some (hdr ++ body ++ ftr)
    unfold assembleDoc
    simp
  · show some (assembleDoc true false hdr body ftr) = some (hdr ++ body ++ bib_include ++ ftr)
    unfold assembleDoc
    simp

/-- C10 witness: a concrete suppressed-auto-include build still writes the
bibliography, runs the same passes, and assembles without the directive
block. -/
theorem no_bib_include_keeps_pipeline_wit :
    (mainModel fsEmpty 1 (fun s => some s) (fun _ => true) true true true
      [] "H".toList "F".toList).bibWritten = true ∧
    (mainModel fsEmpty 1 (fun s => some s) (fun _ => true) true true true
      [] "H".toList "F".toList).passes =
      (mainModel fsEmpty 1 (fun s => some s) (fun _ => true) true true false
        [] "H".toList "F".toList).passes ∧
    ∃ body,
      (mainModel fsEmpty 1 (fun s => some s) (fun _ => true) true true true
        [] "H".toList "F".toList).assembled = some ("H".toList ++ body ++ "F".toList) ∧
      (mainModel fsEmpty 1 (fun s => some s) (fun _ => true) true true false
        [] "H".toList "F".toList).assembled =
        some ("H".toList ++ body ++ bib_include ++ "F".toList) :=
  no_bib_include_keeps_pipeline fsEmpty 1 (fun s => some s) (fun _ => true) true
    [] "H".toList "F".toList (by decide)

/-- C8 (code bug): the source performs no cycle detection.  On the fixture
where `a.tex` includes itself, processing the directive line never
terminates — no recursion budget suffices — instead of failing with the
CyclicIncludeError the claim requires (no such error exists in the code). -/
theorem cyclic_include_never_terminates :
    ∀ n, processLine fsCyc n cycLine = Except.error PErr.fuelOut := by
  have key : ∀ n, procLines fsCyc n [cycLine] = Except.error PErr.fuelOut := by
    intro n
    induction n with
    | zero => rfl
    | succ m ih =>
      rw [procLines]
      have h2 : (startsWith inputOpen (pyStrip cycLine) &&
          endsWith closeBrace (pyStrip cycLine)) = true := by decide
      have h3 : pyReplace closeBrace [] (pyReplace inputOpen [] (pyStrip cycLine)) ++ texExt
          = aTex := by decide
      have h4 : fsCyc aTex = some cycLine := by decide
      have h5 : splitNl cycLine = [cycLine] := by decide
      simp only [h2, if_true, h3, h4, h5, ih]
  intro n
  unfold processLine
  rw [key n]

/-- C1 counterexample: encoding the literal-marker line whose payload is
the printable sequence a--|b and then decoding the emitted marker line
yields ab, not the original payload — the replace used by the encoder
removes every occurrence of the marker, not only the prefix. -/
theorem escaper_roundTrip_cex :
    processLine fsEmpty 1 (litMarker ++ "a--|b".toList) =
      Except.ok ('\n' :: (decodeMarker ++ hexEncode "ab".toList ++ ['\n'])) ∧
    outProcessLine (decodeMarker ++ hexEncode "ab".toList) = Except.ok "ab".toList ∧
    "ab".toList ≠ "a--|b".toList := by decide

/-- C1 (amended): for every printable payload that contains no occurrence
of the literal marker and no trailing whitespace, encoding the tagged line
emits the hex payload wrapped in the opaque marker on its own line, and
decoding that marker line restores the payload exactly. -/
theorem escaper_roundTrip_amended (P : List Char) (n : Nat)
    (hPrint : ∀ c ∈ P, 32 ≤ c.toNat ∧ c.toNat ≤ 126)
    (hNoMark : occurs litMarker P = false)
    (hLast : ∀ c, P.getLast? = some c → isPySpace c = false) :
    processLine fsEmpty (n + 1) (litMarker ++ P) =
      Except.ok ('\n' :: (decodeMarker ++ hexEncode P ++ ['\n'])) ∧
    outProcessLine (decodeMarker ++ hexEncode P) = Except.ok P := by
  have hstrip : pyStrip (litMarker ++ P) = litMarker ++ P := pyStrip_litMarker P hLast
  have hio : startsWith inputOpen (litMarker ++ P) = false :=
    startsWith_cons_false '\\' '-' _ _ (by decide)
  have hlit : startsWith litMarker (litMarker ++ P) = true := startsWith_append litMarker P
  have hrep : pyReplace litMarker [] (litMarker ++ P) = P := by
    rw [pyReplace_marker_of_no_occurs litMarker [] P (by decide) hNoMark]
    simp
  constructor
  · unfold processLine
    rw [procLines]
    simp only [hstrip, hio, Bool.false_and, Bool.false_eq_true, if_false, hlit, if_true,
      hrep, procLines_nil]
    rfl
  · have hns : ∀ c ∈ decodeMarker ++ hexEncode P, isPySpace c = false := by
      intro c hc
      rcases List.mem_append.mp hc with hc | hc
      · have hall : ∀ c ∈ decodeMarker, isPySpace c = false := by decide
        exact hall c hc
      · obtain ⟨m, hm, rfl⟩ := mem_hexEncode c _ hc
        exact isPySpace_hexDigit m hm
    have hstrip2 : pyStrip (decodeMarker ++ hexEncode P) = decodeMarker ++ hexEncode P :=
      pyStrip_all_false _ hns
    have hsw : startsWith decodeMarker (decodeMarker ++ hexEncode P) = true :=
      startsWith_append _ _
    have hnodot : occurs decodeMarker (hexEncode P) = false := by
      apply occurs_false_of_head_notMem
      intro hmem
      obtain ⟨m, hm, heq⟩ := mem_hexEncode '.' _ hmem
      exact hexDigit_ne_dot m hm heq.symm
    have hrep2 : pyReplace decodeMarker [] (decodeMarker ++ hexEncode P) = hexEncode P := by
      rw [pyReplace_marker_of_no_occurs decodeMarker [] _ (by decide) hnodot]
      simp
    have hdec : hexDecode (hexEncode P) = some P :=
      hexDecode_hexEncode P (fun c hc => by have := hPrint c hc; omega)
    unfold outProcessLine
    simp only [hstrip2, hsw, if_true, hrep2, hdec]

/-- C1 witness: the payload ab is printable, marker-free and has no
trailing whitespace, and it round-trips exactly. -/
theorem escaper_roundTrip_amended_wit :
    processLine fsEmpty (0 + 1) (litMarker ++ "ab".toList) =
      Except.ok ('\n' :: (decodeMarker ++ hexEncode "ab".toList ++ ['\n'])) ∧
    outProcessLine (decodeMarker ++ hexEncode "ab".toList) = Except.ok "ab".toList :=
  escaper_roundTrip_amended "ab".toList 0 (by decide) (by decide) (by decide)

/-- C5: a line whose trimmed content is an inclusion directive for a bare
identifier is replaced by the full contents of `<identifier>.tex` looked up
in the file store (newline-padded, as the source emits it); when the
included file is literal text, the output contains that text verbatim and
no directive token remains. -/
theorem include_splices_contents (fs : List Char → Option (List Char)) (n : Nat)
    (line ident X : List Char)
    (hline : pyStrip line = inputOpen ++ ident ++ closeBrace)
    (hid1 : '\\' ∉ ident) (hid2 : cbr ∉ ident)
    (hfs : fs (ident ++ texExt) = some X)
    (hfuel : (splitNl X).length ≤ n)
    (hb : '\\' ∉ X) (hbt : btick ∉ X) (hap : apos ∉ X)
    (hmk : ∀ l ∈ splitNl X, startsWith litMarker (pyStrip l) = false) :
    processLine fs (n + 1) line = Except.ok ('\n' :: (X ++ ['\n'])) ∧
    occurs X ('\n' :: (X ++ ['\n'])) = true ∧
    occurs inputOpen ('\n' :: (X ++ ['\n'])) = false := by
  have hsw : startsWith inputOpen (pyStrip line) = true := by
    rw [hline, List.append_assoc]
    exact startsWith_append _ _
  have hew : endsWith closeBrace (pyStrip line) = true := by
    rw [hline]
    exact endsWith_append closeBrace (inputOpen ++ ident)
  have hcond : (startsWith inputOpen (pyStrip line) &&
      endsWith closeBrace (pyStrip line)) = true := by
    rw [hsw, hew]
    rfl
  have hno : occurs inputOpen (ident ++ [cbr]) = false := by
    apply occurs_false_of_head_notMem
    intro hm
    rcases List.mem_append.mp hm with hm | hm
    · exact hid1 hm
    · rw [List.mem_singleton] at hm
      exact absurd hm (by decide)
  have hfname : pyReplace closeBrace [] (pyReplace inputOpen [] (pyStrip line)) ++ texExt
      = ident ++ texExt := by
    rw [hline, List.append_assoc]
    simp only [closeBrace]
    rw [pyReplace_marker_of_no_occurs inputOpen [] (ident ++ [cbr]) (by decide) hno]
    rw [List.nil_append, replace_single_concat cbr [] ident hid2]
    simp
  have hproc : procLines fs n (splitNl X) = Except.ok (splitNl X) :=
    procLines_all_plain fs (splitNl X)
      (fun l hl => plain_of_chars X l hl hb hbt hap (hmk l hl)) n hfuel
  have hjoin : joinNl (splitNl X) = X := joinNl_splitNl X
  refine ⟨?_, ?_, ?_⟩
  · unfold processLine
    rw [procLines]
    simp only [hcond, if_true, hfname, hfs, hproc, hjoin, procLines_nil]
    rfl
  · exact occurs_cons_of_occurs X '\n' (X ++ ['\n'])
      (occurs_of_startsWith X (X ++ ['\n']) (startsWith_append X ['\n']))
  · apply occurs_false_of_head_notMem
    intro hm
    rcases List.mem_cons.mp hm with hm | hm
    · exact absurd hm (by decide)
    · rcases List.mem_append.mp hm with hm | hm
      · exact hb hm
      · rw [List.mem_singleton] at hm
        exact absurd hm (by decide)

/-- C5 witness: with `a` holding a directive for `b` and `b.tex` holding
the literal text hello, the directive line expands to that text, which
appears verbatim, and no directive token remains. -/
theorem include_splices_contents_wit :
    processLine (fun nm => if nm = ['b'] ++ texExt then some "hello".toList else none)
      (1 + 1) (inputOpen ++ ['b'] ++ closeBrace) =
      Except.ok ('\n' :: ("hello".toList ++ ['\n'])) ∧
    occurs "hello".toList ('\n' :: ("hello".toList ++ ['\n'])) = true ∧
    occurs inputOpen ('\n' :: ("hello".toList ++ ['\n'])) = false :=
  include_splices_contents (fun nm => if nm = ['b'] ++ texExt then some "hello".toList else none)
    1 (inputOpen ++ ['b'] ++ closeBrace) ['b'] "hello".toList (by decide) (by decide)
    (by decide) (by decide) (by decide) (by decide) (by decide) (by decide) (by decide)
